import Mathlib

/-!
Verification development for the PyPSA-KR-PLANiT aggregation and resampling
engine.  The definitions below are shallow embeddings of the Python sources
under `src/libs/` (`region_aggregator.py`, `aggregators.py`, `resample.py`,
`load_scaler.py`).  Numeric columns are modelled as rational numbers, pandas
missing values (`NaN`) as `Option`, and component tables as lists of records.
-/

namespace PlanitSpec

/-- Unweighted mean of a list of rationals, `Series.mean()` for a nonempty
series (for the empty list the value is `0/0 = 0`; pandas would give `NaN`,
but every call site in the sources applies it to a nonempty group). -/
def qmean (l : List ℚ) : ℚ := l.sum / l.length

/-- `Series.max()` over a nonempty series (default `0` on the empty list). -/
def listMaxD (l : List ℚ) : ℚ := l.foldl max (l.headD 0)

/-- `Series.min()` over a nonempty series (default `0` on the empty list). -/
def listMinD (l : List ℚ) : ℚ := l.foldl min (l.headD 0)

/-- Strip leading and trailing whitespace from a character list. -/
def pstripChars (l : List Char) : List Char :=
  List.rdropWhile Char.isWhitespace (List.dropWhile Char.isWhitespace l)

/-- Python `str.strip()`: remove leading and trailing whitespace. -/
def pstrip (s : String) : String := String.mk (pstripChars s.data)

/-- Python-`dict` insertion on an association list: overwrite the value at an
existing key (keeping its position) or append a new binding. -/
def dinsert (m : List (String × String)) (k v : String) :
    List (String × String) :=
  if k ∈ m.map Prod.fst then m.map (fun p => if p.1 = k then (p.1, v) else p)
  else m ++ [(k, v)]

/-- Python `dict.get(k)`. -/
def dlookup (m : List (String × String)) (k : String) : Option String :=
  (m.find? (fun p => p.1 = k)).map Prod.snd

/-- Python `dict.get(k, d)`. -/
def dlookupD (m : List (String × String)) (k d : String) : String :=
  (dlookup m k).getD d

/-- Python `str.endswith` (on the character list, so that it computes by
kernel reduction). -/
def strEndsWith (s suf : String) : Bool := suf.data.isSuffixOf s.data

namespace RegionAgg

/-- One record of the province-mapping input: the `official` and `short`
columns, `none` standing for a pandas missing value.
(`src/libs/region_aggregator.py`, `load_province_mapping`.) -/
abbrev ProvRecord := Option String × Option String

/-- One loop iteration of `load_province_mapping`: strip both cells, skip the
record when `short` is missing or empty, otherwise bind `official ↦ short`
(when `official` is nonempty) and `short ↦ short`. -/
def provStep (m : List (String × String)) (rec : ProvRecord) :
    List (String × String) :=
  match rec.2 with
  | none => m
  | some rawShort =>
    if pstrip rawShort = "" then m
    else
      dinsert
        (match rec.1 with
         | none => m
         | some rawOff =>
           if pstrip rawOff = "" then m
           else dinsert m (pstrip rawOff) (pstrip rawShort))
        (pstrip rawShort) (pstrip rawShort)

/-- `load_province_mapping` of `src/libs/region_aggregator.py` on in-memory
mapping records (the `mapping_data` branch; the CSV branch builds the same
dictionary from file rows). -/
def load_province_mapping (records : List ProvRecord) :
    List (String × String) :=
  records.foldl provStep []

/-- `standardize_region_name` on an already-string region name: look the
stripped name up in the mapping, defaulting to the stripped name itself.
(The empty-mapping early return hands the name back unstripped.) -/
def stdName (region_name : String) (mapping : List (String × String)) :
    String :=
  if mapping = [] then region_name
  else dlookupD mapping (pstrip region_name) (pstrip region_name)

/-- `standardize_region_name` of `src/libs/region_aggregator.py`; a `none`
region name (pandas `NaN`) is returned unchanged. -/
def standardize_region_name (region_name : Option String)
    (mapping : List (String × String)) : Option String :=
  match region_name with
  | none => none
  | some r => some (stdName r mapping)

/-- A row of the bus table.  `region` is the value of the configured region
column (e.g. `province`), `none` for a missing value. -/
structure Bus where
  name : String
  region : Option String
  x : ℚ
  y : ℚ
  v_nom : ℚ
deriving DecidableEq, Repr

/-- A row of the generator table: its bus reference and its region-column
value (`none` when the value is missing or the column is absent, both of
which the source treats as "unmapped"). -/
structure Gen where
  name : String
  bus : String
  region : Option String
deriving DecidableEq, Repr

/-- A row of the line table.  `circuits` is the custom parallel-count column;
`num_parallel` is the standard PyPSA attribute the merger writes (lines
emitted by the merger carry `circuits = 0`, mirroring that the custom column
is not set on them). -/
structure Line where
  name : String
  bus0 : String
  bus1 : String
  circuits : ℚ
  num_parallel : ℚ
  r : ℚ
  x : ℚ
  b : ℚ
  s_nom : ℚ
  lineLength : ℚ
  v_nom : ℚ
deriving DecidableEq, Repr

/-- A row of the link table. -/
structure Link where
  name : String
  bus0 : String
  bus1 : String
  p_nom : ℚ
  efficiency : ℚ
  linkLength : ℚ
deriving DecidableEq, Repr

/-- A row of the load table (`region` as for generators). -/
structure Load where
  name : String
  bus : String
  region : Option String
deriving DecidableEq, Repr

/-- The slice of a PyPSA network that the regional-aggregation pass reads and
writes (static component tables; the pass drops the time-indexed flow data of
merged edges rather than merging it, see spec §9). -/
structure Network where
  buses : List Bus
  generators : List Gen
  lines : List Line
  links : List Link
  loads : List Load
deriving DecidableEq, Repr

/-- The `lines` sub-configuration with the `dict.get` defaults used by
`_aggregate_lines_by_region`. -/
structure LineConfig where
  remove_self_loops : Bool := true
  grouping : String := "by_voltage"
  circuits : String := "sum"
  s_nom : String := "keep_original"
  impedance : String := "weighted_by_circuits"
  lengthRule : String := "mean"
deriving DecidableEq, Repr

/-- The `links` sub-configuration with the `dict.get` defaults used by
`_aggregate_links_by_region`. -/
structure LinkConfig where
  remove_self_loops : Bool := true
  grouping : String := "ignore_voltage"
  p_nom : String := "sum"
  unlimited_capacity : ℚ := 1000000
  default_efficiency : ℚ := 1
  lengthRule : String := "mean"
deriving DecidableEq, Repr

/-- The merged-line record assembled by the grouping loop of
`_aggregate_lines_by_region` (`agg_line` in the source).  `Option` fields are
attributes the source only sets on some rule values; a missing attribute is
later filled with the PyPSA column default (`0`). -/
structure AggLine where
  bus0 : String
  bus1 : String
  v_nom : Option ℚ
  num_parallel : ℚ
  s_nom : ℚ
  r : Option ℚ
  x : Option ℚ
  b : Option ℚ
  lineLength : Option ℚ
deriving DecidableEq, Repr

/-- The body of the grouping loop of `_aggregate_lines_by_region`
(`src/libs/region_aggregator.py`, lines 323–404): reduce one group of
parallel lines between the region pair `(b0, b1)` to a single record. -/
def aggLineGroup (cfg : LineConfig) (b0 b1 : String) (vn : Option ℚ)
    (group : List Line) : AggLine :=
  let total_circuits :=
    if cfg.circuits = "sum" then (group.map Line.circuits).sum
    else if cfg.circuits = "max" then listMaxD (group.map Line.circuits)
    else if cfg.circuits = "mean" then qmean (group.map Line.circuits)
    else (group.map Line.circuits).sum
  let s_nom :=
    if cfg.s_nom = "sum" then (group.map Line.s_nom).sum
    else if cfg.s_nom = "max" then listMaxD (group.map Line.s_nom)
    else if cfg.s_nom = "scale_by_circuits" then
      (group.map Line.s_nom).headD 0 * total_circuits
    else (group.map Line.s_nom).headD 0
  let imp : Option ℚ × Option ℚ × Option ℚ :=
    if cfg.impedance = "weighted_by_circuits" then
      let weight_sum := (group.map Line.circuits).sum
      if 0 < weight_sum then
        (some ((group.map (fun l => l.r * l.circuits)).sum / weight_sum),
         some ((group.map (fun l => l.x * l.circuits)).sum / weight_sum),
         some ((group.map (fun l => l.b * l.circuits)).sum / weight_sum))
      else
        (some (qmean (group.map Line.r)), some (qmean (group.map Line.x)),
         some (qmean (group.map Line.b)))
    else if cfg.impedance = "mean" then
      (some (qmean (group.map Line.r)), some (qmean (group.map Line.x)),
       some (qmean (group.map Line.b)))
    else if cfg.impedance = "min" then
      (some (listMinD (group.map Line.r)), some (listMinD (group.map Line.x)),
       some (listMinD (group.map Line.b)))
    else if cfg.impedance = "max" then
      (some (listMaxD (group.map Line.r)), some (listMaxD (group.map Line.x)),
       some (listMaxD (group.map Line.b)))
    else (none, none, none)
  let len :=
    if cfg.lengthRule = "mean" then some (qmean (group.map Line.lineLength))
    else if cfg.lengthRule = "max" then
      some (listMaxD (group.map Line.lineLength))
    else if cfg.lengthRule = "min" then
      some (listMinD (group.map Line.lineLength))
    else none
  { bus0 := b0, bus1 := b1, v_nom := vn, num_parallel := total_circuits,
    s_nom := s_nom, r := imp.1, x := imp.2.1, b := imp.2.2, lineLength := len }

/-- The merged-link record assembled by the grouping loop of
`_aggregate_links_by_region` (`agg_link` in the source). -/
structure AggLink where
  bus0 : String
  bus1 : String
  p_nom : ℚ
  efficiency : ℚ
  linkLength : Option ℚ
deriving DecidableEq, Repr

/-- The body of the grouping loop of `_aggregate_links_by_region`
(`src/libs/region_aggregator.py`, lines 470–517): reduce one group of
parallel links; a combined `p_nom` of zero is replaced by the
`unlimited_capacity` sentinel. -/
def aggLinkGroup (cfg : LinkConfig) (b0 b1 : String) (group : List Link) :
    AggLink :=
  let p0 :=
    if cfg.p_nom = "sum" then (group.map Link.p_nom).sum
    else if cfg.p_nom = "max" then listMaxD (group.map Link.p_nom)
    else (group.map Link.p_nom).headD 0
  let p_nom := if p0 = 0 then cfg.unlimited_capacity else p0
  let len :=
    if cfg.lengthRule = "mean" then some (qmean (group.map Link.linkLength))
    else if cfg.lengthRule = "max" then
      some (listMaxD (group.map Link.linkLength))
    else if cfg.lengthRule = "min" then
      some (listMinD (group.map Link.linkLength))
    else none
  { bus0 := b0, bus1 := b1, p_nom := p_nom,
    efficiency := cfg.default_efficiency, linkLength := len }

/-- `_create_bus_to_region_mapping`: the old-bus → standardized-region
dictionary (buses with a missing region value are excluded) together with the
set of distinct regions. -/
def _create_bus_to_region_mapping (n : Network)
    (pm : List (String × String)) : List (String × String) × List String :=
  let btr := n.buses.filterMap
    (fun b => b.region.map (fun r => (b.name, stdName r pm)))
  (btr, (btr.map Prod.snd).dedup)

/-- `_aggregate_buses_by_region`: add one bus per region (average
coordinates, maximal voltage over the member buses) and remove every old
bus, so the resulting bus table holds exactly the regional buses. -/
def _aggregate_buses_by_region (n : Network) (regions : List String)
    (btr : List (String × String)) : Network :=
  let newBuses := regions.map (fun reg =>
    let members := (btr.filter (fun p => p.2 = reg)).map Prod.fst
    let regionBuses := n.buses.filter (fun b => b.name ∈ members)
    { name := reg, region := some reg,
      x := qmean (regionBuses.map Bus.x),
      y := qmean (regionBuses.map Bus.y),
      v_nom := listMaxD (regionBuses.map Bus.v_nom) : Bus })
  { n with buses := newBuses }

/-- The per-generator body of `_map_generators_to_regional_buses`: rebind
the generator's bus to the standardized region name when that name is an
existing bus; a generator with a missing or unmapped region value is left
untouched (only a counter is incremented in the source). -/
def mapGenToRegionalBus (busNames : List String)
    (pm : List (String × String)) (g : Gen) : Gen :=
  match g.region with
  | some r =>
    if stdName r pm ∈ busNames then { g with bus := stdName r pm } else g
  | none => g

/-- `_map_generators_to_regional_buses`: apply `mapGenToRegionalBus` to
every generator. -/
def _map_generators_to_regional_buses (n : Network)
    (pm : List (String × String)) : Network :=
  { n with generators :=
      n.generators.map (mapGenToRegionalBus (n.buses.map Bus.name) pm) }

/-- The groupby key of `_aggregate_lines_by_region`: the region pair, plus
`v_nom` when grouping by voltage. -/
def lineKey (useV : Bool) (t : Line × String × String) :
    String × String × Option ℚ :=
  (t.2.1, t.2.2, if useV then some t.1.v_nom else none)

/-- Map a line's endpoints through the bus→region dictionary
(`bus0.map(bus_to_region)`); a line with an unmapped endpoint is dropped. -/
def mapEndpointsLine (btr : List (String × String)) (l : Line) :
    Option (Line × String × String) :=
  match dlookup btr l.bus0, dlookup btr l.bus1 with
  | some r0, some r1 => some (l, r0, r1)
  | _, _ => none

/-- The valid (endpoint-mapped) lines after the optional self-loop
removal. -/
def linesAfterSelf (n : Network) (cfg : LineConfig)
    (btr : List (String × String)) : List (Line × String × String) :=
  if cfg.remove_self_loops then
    (n.lines.filterMap (mapEndpointsLine btr)).filter
      (fun t => t.2.1 ≠ t.2.2)
  else n.lines.filterMap (mapEndpointsLine btr)

/-- The distinct groupby keys, in the line table's order. -/
def lineGroupKeys (n : Network) (cfg : LineConfig)
    (btr : List (String × String)) : List (String × String × Option ℚ) :=
  ((linesAfterSelf n cfg btr).map
    (lineKey (cfg.grouping = "by_voltage"))).dedup

/-- One merged line as added by `network.add("Line", ...)`; attributes the
merge loop left unset fall back to the PyPSA column default `0`. -/
def mkMergedLine (cfg : LineConfig) (n : Network)
    (btr : List (String × String))
    (p : ℕ × (String × String × Option ℚ)) : Line :=
  let k := p.2
  let g := aggLineGroup cfg k.1 k.2.1 k.2.2
    (((linesAfterSelf n cfg btr).filter
      (fun t => lineKey (cfg.grouping = "by_voltage") t = k)).map Prod.fst)
  let i := p.1
  { name := s!"line_{k.1}_{k.2.1}_{i}",
    bus0 := g.bus0, bus1 := g.bus1,
    circuits := 0, num_parallel := g.num_parallel,
    r := g.r.getD 0, x := g.x.getD 0, b := g.b.getD 0,
    s_nom := g.s_nom, lineLength := g.lineLength.getD 0,
    v_nom := g.v_nom.getD 0 }

/-- `_aggregate_lines_by_region`: map endpoints to regions, drop lines with
an unmapped endpoint, drop self-loops (when configured), group by region
pair (and voltage, by default) and emit one merged line per group, removing
the originals. -/
def _aggregate_lines_by_region (n : Network) (cfg : LineConfig)
    (btr : List (String × String)) : Network :=
  if n.lines.isEmpty then n
  else { n with lines :=
      (lineGroupKeys n cfg btr).enum.map (mkMergedLine cfg n btr) }

/-- As `mapEndpointsLine`, for links. -/
def mapEndpointsLink (btr : List (String × String)) (l : Link) :
    Option (Link × String × String) :=
  match dlookup btr l.bus0, dlookup btr l.bus1 with
  | some r0, some r1 => some (l, r0, r1)
  | _, _ => none

/-- The valid (endpoint-mapped) links after the optional self-loop
removal. -/
def linksAfterSelf (n : Network) (cfg : LinkConfig)
    (btr : List (String × String)) : List (Link × String × String) :=
  if cfg.remove_self_loops then
    (n.links.filterMap (mapEndpointsLink btr)).filter
      (fun t => t.2.1 ≠ t.2.2)
  else n.links.filterMap (mapEndpointsLink btr)

/-- The distinct groupby keys (region pairs), in the link table's order. -/
def linkGroupKeys (n : Network) (cfg : LinkConfig)
    (btr : List (String × String)) : List (String × String) :=
  ((linksAfterSelf n cfg btr).map (fun t => (t.2.1, t.2.2))).dedup

/-- One merged link as added by `network.add("Link", ...)`. -/
def mkMergedLink (cfg : LinkConfig) (n : Network)
    (btr : List (String × String)) (p : ℕ × (String × String)) : Link :=
  let k := p.2
  let g := aggLinkGroup cfg k.1 k.2
    (((linksAfterSelf n cfg btr).filter
      (fun t => (t.2.1, t.2.2) = k)).map Prod.fst)
  let i := p.1
  { name := s!"link_{k.1}_{k.2}_{i}",
    bus0 := g.bus0, bus1 := g.bus1, p_nom := g.p_nom,
    efficiency := g.efficiency, linkLength := g.linkLength.getD 0 }

/-- `_aggregate_links_by_region`: as for lines, grouping by the region pair
(the default `ignore_voltage`; the link table has no `v_nom` column). -/
def _aggregate_links_by_region (n : Network) (cfg : LinkConfig)
    (btr : List (String × String)) : Network :=
  if n.links.isEmpty then n
  else { n with links :=
      (linkGroupKeys n cfg btr).enum.map (mkMergedLink cfg n btr) }

/-- The load-fixing loop of `_create_regional_loads`: a load whose bus no
longer exists is rebound to its raw region value when that is an existing
bus, and removed otherwise. -/
def fixLoad (busNames : List String) (l : Load) : Option Load :=
  if l.bus ∈ busNames then some l
  else match l.region with
    | some r => if r ∈ busNames then some { l with bus := r } else none
    | none => none

/-- The demand rows after region-name standardization and removal of the
"합계" (total) row. -/
def demandRows (rows0 : List (Option String × ℚ))
    (pm : List (String × String)) : List (Option String × ℚ) :=
  (rows0.map (fun p => (standardize_region_name p.1 pm, p.2))).filter
    (fun p => p.1 ≠ some "합계")

/-- One demand-row iteration: add `load_REGION` on the regional bus when
the standardized region is an existing bus, the ratio is positive and the
load does not exist yet. -/
def addDemandLoad (busNames : List String) (total : ℚ) (acc : List Load)
    (p : Option String × ℚ) : List Load :=
  match p.1 with
  | some region =>
    if region ∈ busNames ∧ 0 < p.2 / total then
      if ("load_" ++ region) ∈ acc.map Load.name then acc
      else acc ++ [⟨"load_" ++ region, region, none⟩]
    else acc
  | none => acc

/-- One iteration of the equal-loads fallback (demand data unavailable):
one load per regional bus. -/
def addFallbackLoad (acc : List Load) (region : String) : List Load :=
  if ("load_" ++ region) ∈ acc.map Load.name then acc
  else acc ++ [⟨"load_" ++ region, region, none⟩]

/-- The load table after the fix-up loop and the demand-row loop. -/
def regionalLoadsFromDemand (n : Network)
    (rows0 : List (Option String × ℚ)) (pm : List (String × String)) :
    List Load :=
  (demandRows rows0 pm).foldl
    (addDemandLoad (n.buses.map Bus.name)
      ((demandRows rows0 pm).map Prod.snd).sum)
    (n.loads.filterMap (fixLoad (n.buses.map Bus.name)))

/-- The equal-loads fallback table (demand data unavailable). -/
def fallbackLoads (n : Network) : List Load :=
  (n.buses.map Bus.name).foldl addFallbackLoad
    (n.loads.filterMap (fixLoad (n.buses.map Bus.name)))

/-- `_create_regional_loads`, restricted to the load-table structure (which
loads exist and which bus each references); the time-series magnitudes the
source distributes are not part of this static reference model.  Fix or
remove loads with a dangling bus, then create the regional loads from the
demand rows — or, when the demand data cannot be loaded (`none`), one load
per bus. -/
def _create_regional_loads (n : Network)
    (demand : Option (List (Option String × ℚ)))
    (pm : List (String × String)) : Network :=
  match demand with
  | some rows0 => { n with loads := regionalLoadsFromDemand n rows0 pm }
  | none => { n with loads := fallbackLoads n }

/-- The `regional_aggregation` configuration slice used by the pass. -/
structure RegionalConfig where
  lineCfg : LineConfig := {}
  linkCfg : LinkConfig := {}
  provinceRecords : List ProvRecord := []
  demandData : Option (List (Option String × ℚ)) := none

/-- `aggregate_network_by_region` (`src/libs/region_aggregator.py`, lines
677–768), with the optional generator-by-carrier sub-step left at its
default (off): build the bus→region mapping, replace buses by regional
buses, rebind generators, merge lines and links by region pair, and create
the regional loads. -/
def aggregate_network_by_region (n : Network) (cfg : RegionalConfig) :
    Network :=
  let pm := load_province_mapping cfg.provinceRecords
  let p := _create_bus_to_region_mapping n pm
  let n1 := _aggregate_buses_by_region n p.2 p.1
  let n2 := _map_generators_to_regional_buses n1 pm
  let n3 := if ¬ n2.lines.isEmpty then
    _aggregate_lines_by_region n2 cfg.lineCfg p.1 else n2
  let n4 := if ¬ n3.links.isEmpty then
    _aggregate_links_by_region n3 cfg.linkCfg p.1 else n3
  _create_regional_loads n4 cfg.demandData pm

end RegionAgg

namespace Aggregators

/-- A cell value of the generator table: numeric or string. -/
inductive Val
  | num : ℚ → Val
  | str : String → Val
deriving DecidableEq, Repr

/-- A rule value from `generator_region_aggregator_rules`: a string, a
number, or a non-scalar Python value (e.g. `None`), which fails the
`isinstance(rule, (str, int, float))` test. -/
inductive RuleSpec
  | name : String → RuleSpec
  | num : ℚ → RuleSpec
  | nonScalar : RuleSpec
deriving DecidableEq, Repr

/-- The rule names the source's fixed-value fallback excludes
(`src/libs/aggregators.py`, line 199). -/
def knownRuleStrings : List String :=
  ["carrier", "region", "p_nom", "oldest", "smallest", "newest", "largest",
   "sum", "mean", "remove", "ignore"]

/-- `Series.idxmax` followed by `.loc`: the value of the first row attaining
the maximal `p_nom`.  Rows are `(p_nom, attribute value)` pairs. -/
def valueAtMaxPnom : List (ℚ × ℚ) → ℚ
  | [] => 0
  | r :: rs => (rs.foldl (fun best q => if best.1 < q.1 then q else best) r).2

/-- The per-column body of the merge loop of
`aggregate_generators_by_carrier_and_region` (`src/libs/aggregators.py`,
lines 167–202) for a numeric column: apply the resolved rule to the group's
`(p_nom, value)` rows.  `none` means the attribute is omitted from the
merged generator (rules `remove`/`ignore`, or a `region` rule with no
region). -/
def mergeStaticAttr (rule : RuleSpec) (carrier : String)
    (region : Option String) (colName : String)
    (pm : List (String × String)) (rows : List (ℚ × ℚ)) : Option Val :=
  match rule with
  | .nonScalar => some (.num (valueAtMaxPnom rows))
  | .num q => some (.num q)
  | .name s =>
    if s = "remove" ∨ s = "ignore" then none
    else if s = "carrier" then some (.str carrier)
    else if s = "region" then
      if colName = "bus" then
        region.map (fun r => Val.str (RegionAgg.stdName r pm))
      else region.map Val.str
    else if s = "p_nom" then some (.num (valueAtMaxPnom rows))
    else if s = "oldest" ∨ s = "smallest" then
      some (.num (listMinD (rows.map Prod.snd)))
    else if s = "newest" ∨ s = "largest" then
      some (.num (listMaxD (rows.map Prod.snd)))
    else if s = "sum" then some (.num (rows.map Prod.snd).sum)
    else if s = "mean" then some (.num (qmean (rows.map Prod.snd)))
    else some (.str s)

/-- The time-series rules the co-aggregator knows
(`src/libs/aggregators.py`, lines 287–298). -/
def knownTsRules : List String := ["sum", "mean", "max", "min"]

/-- One snapshot of the time-series co-aggregation
(`df[cols].sum(axis=1)` etc.): reduce the group's column values at a fixed
snapshot; an unknown rule warns and uses the mean. -/
def mergeTsAt (rule : String) (vals : List ℚ) : ℚ :=
  if rule = "sum" then vals.sum
  else if rule = "mean" then qmean vals
  else if rule = "max" then listMaxD vals
  else if rule = "min" then listMinD vals
  else qmean vals

/-- The outcome of the entry guards of
`aggregate_generators_by_carrier_and_region` (`src/libs/aggregators.py`,
lines 69–93).  The skip outcomes return the network unchanged after printing
a warning; no outcome raises. -/
inductive GenAggOutcome
  | skippedNoCarrier
  | skippedNoRules
  | carrierOnly (warnedMissingRegionCol : Bool)
  | carrierAndRegion
deriving DecidableEq, Repr

/-- The entry guards of `aggregate_generators_by_carrier_and_region`: decide
whether the pass runs, degrades to carrier-only grouping, or skips.  The
`Except` layer records that the source never raises here: a missing
`carrier` column or missing rule table is a warning plus an unchanged
return, and a missing region column merely degrades the grouping. -/
def genAggGuard (genColumns : List String) (regionColumn : Option String)
    (hasRules : Bool) : Except String GenAggOutcome :=
  if "carrier" ∉ genColumns then .ok .skippedNoCarrier
  else
    match regionColumn with
    | none => if ¬ hasRules then .ok .skippedNoRules else .ok (.carrierOnly false)
    | some rc =>
      if rc ∉ genColumns then
        if ¬ hasRules then .ok .skippedNoRules else .ok (.carrierOnly true)
      else
        if ¬ hasRules then .ok .skippedNoRules else .ok .carrierAndRegion

/-- Whether a guard outcome is a raised (fatal) error. -/
def isFatalGuard : Except String GenAggOutcome → Bool
  | .error _ => true
  | .ok _ => false

end Aggregators

namespace Resample

/-- One time-indexed dataframe (`network.<comp>_t.<attr>`): rows are
`(timestamp in hours, values per entity)`. -/
structure TSTable where
  comp : String
  attr : String
  isDatetime : Bool
  data : List (ℕ × List ℚ)
deriving DecidableEq, Repr

/-- One static component table, column-wise: attribute name ↦ values per
entity. -/
structure StaticComp where
  name : String
  attrs : List (String × List ℚ)
deriving DecidableEq, Repr

/-- The slice of the network the temporal resampler touches. -/
structure RNetwork where
  snapshots : List ℕ
  tables : List TSTable
  comps : List StaticComp
deriving DecidableEq, Repr

/-- A row of the `resample_rules` sheet. -/
structure RuleRow where
  component : String
  attr : String
  rule : String
  value : Option ℚ
deriving DecidableEq, Repr

/-- Observable actions of one resampler run, in order: a time-indexed table
being bucket-reduced, or the shared snapshot axis being replaced. -/
inductive REvent
  | resampledTable (comp attr : String)
  | axisSet
deriving DecidableEq, Repr

/-- Column-wise mean of a rectangular block of rows
(`DataFrame.resample(...).mean()` within one bucket). -/
def meanRows (rows : List (List ℚ)) : List ℚ :=
  (List.range (rows.headD []).length).map
    (fun j => qmean (rows.map (fun r => r.getD j 0)))

/-- `df.resample(f'{w}h').mean()`: group rows into `w`-hour buckets (bucket
of timestamp `t` is `t / w`) and take the column-wise mean, the bucket's
start as the new timestamp. -/
def resampleTable (w : ℕ) (t : TSTable) : TSTable :=
  let keys := (t.data.map (fun r => r.1 / w)).dedup
  { t with data := keys.map (fun k =>
      (w * k, meanRows ((t.data.filter (fun r => r.1 / w = k)).map Prod.snd))) }

/-- `snapshots.to_series().resample(f'{w}h').first().index`: the bucket
start times. -/
def newSnapshots (w : ℕ) (snaps : List ℕ) : List ℕ :=
  ((snaps.map (fun t => t / w)).dedup).map (fun k => w * k)

/-- One iteration of the temporal-data loop of `resample_network`
(`src/libs/resample.py`, lines 135–154): a nonempty datetime-indexed table
is bucket-reduced (emitting an event); anything else is left alone. -/
def tableStep (w : ℕ) (acc : List TSTable × List REvent) (t : TSTable) :
    List TSTable × List REvent :=
  if t.isDatetime = true ∧ t.data ≠ [] then
    (acc.1 ++ [resampleTable w t], acc.2 ++ [REvent.resampledTable t.comp t.attr])
  else (acc.1 ++ [t], acc.2)

/-- The resampling events the temporal-data loop emits: one per nonempty
datetime-indexed table, in table order. -/
def tsEvents (ts : List TSTable) : List REvent :=
  ts.filterMap (fun t =>
    if t.isDatetime = true ∧ t.data ≠ [] then
      some (REvent.resampledTable t.comp t.attr)
    else none)

/-- Lines 124–158 of `src/libs/resample.py`: bucket-reduce every temporal
table, then replace the snapshot axis, in that order (the trace records the
order). -/
def resampleCore (n : RNetwork) (w : ℕ) : RNetwork × List REvent :=
  let st := n.tables.foldl (tableStep w) ([], [])
  ({ snapshots := newSnapshots w n.snapshots, tables := st.1,
     comps := n.comps }, st.2 ++ [REvent.axisSet])

/-- `_resample_static_components`, per rule row and column
(`src/libs/resample.py`, lines 204–244).  `dflt` is the external PyPSA
component-defaults table consulted by the `default` rule. -/
def applyStaticResampleRule (dflt : String → String → ℚ) (w : ℕ)
    (row : RuleRow) (col : List ℚ) : List ℚ :=
  if row.rule = "scale" then col.map (fun v => v * (w : ℚ))
  else if row.rule = "fixed" then
    match row.value with
    | some v => col.map (fun _ => v)
    | none => col
  else if row.rule = "default" then
    col.map (fun _ => dflt row.component row.attr)
  else col

/-- Python `dict.get` on a column association list. -/
def assocLookup (l : List (String × List ℚ)) (k : String) :
    Option (List ℚ) :=
  (l.find? (fun p => p.1 = k)).map Prod.snd

/-- Overwrite the column stored at a key. -/
def assocUpdate (l : List (String × List ℚ)) (k : String) (v : List ℚ) :
    List (String × List ℚ) :=
  l.map (fun p => if p.1 = k then (p.1, v) else p)

/-- `len(component_df) == 0`: the table holds no entity. -/
def staticCompEmpty (c : StaticComp) : Bool :=
  c.attrs.all (fun p => p.2.isEmpty)

/-- Apply a component's rule rows, in sheet order, to its columns; a rule
for an absent attribute is skipped. -/
def applyRulesToComp (dflt : String → String → ℚ) (w : ℕ)
    (rules : List RuleRow) (c : StaticComp) : StaticComp :=
  rules.foldl (fun c row =>
    match assocLookup c.attrs row.attr with
    | none => c
    | some col =>
      let col2 := applyStaticResampleRule dflt w row col
      { c with attrs := assocUpdate c.attrs row.attr col2 }) c

/-- `_resample_static_components` (`src/libs/resample.py`, lines 168–244):
keep the non-`_t` rule rows, and update each referenced, nonempty component
by its own rows.  (The source walks the rule rows grouped by component and
updates each referenced component table in place; since distinct components
are updated independently, this equals mapping every component through its
own rule subset.) -/
def _resample_static_components (dflt : String → String → ℚ)
    (n : RNetwork) (resample_rules : List RuleRow) (w : ℕ) : RNetwork :=
  let static_rules := resample_rules.filter
    (fun r => ! strEndsWith r.component "_t")
  { n with comps := n.comps.map (fun c =>
      if staticCompEmpty c then c
      else applyRulesToComp dflt w
        (static_rules.filter (fun r => r.component = c.name)) c) }

/-- `resample_network` of `src/libs/resample.py` (lines 97–165), returning
the resulting network together with the trace of observable actions.  A
factor `≤ 1` is an immediate no-op; otherwise every temporal table is
bucket-reduced, the axis is replaced, and only then — and only when a
nonempty rule table was supplied — are static attributes rescaled. -/
def resample_network (dflt : String → String → ℚ) (n : RNetwork)
    (weights : ℕ) (resample_rules : Option (List RuleRow)) :
    RNetwork × List REvent :=
  if weights ≤ 1 then (n, [])
  else
    let core := resampleCore n weights
    match resample_rules with
    | some rules =>
      if rules = [] then core
      else (_resample_static_components dflt core.1 rules weights, core.2)
    | none => core

end Resample

namespace LoadScaler

/-- The slice of the network `scale_loads_to_target` touches:
`loads_t.p_set` as one column (list of snapshot values) per load, `none`
when the attribute is absent. -/
structure LNetwork where
  p_set : Option (List (String × List ℚ))
deriving DecidableEq, Repr

/-- `loads_p_set.sum().sum()`: the grand total over all loads and
snapshots. -/
def grandTotal (cols : List (String × List ℚ)) : ℚ :=
  (cols.map (fun c => c.2.sum)).sum

/-- `scale_loads_to_target` of `src/libs/load_scaler.py` (lines 7–54):
multiply every load's series by `target / current_total`; a missing or
non-positive target, a missing or empty `p_set`, or a zero current total
returns the network unchanged. -/
def scale_loads_to_target (n : LNetwork) (target_load : Option ℚ) :
    LNetwork :=
  match target_load with
  | none => n
  | some t =>
    if t ≤ 0 then n
    else
      match n.p_set with
      | none => n
      | some cols =>
        if cols.isEmpty then n
        else
          let current_total := grandTotal cols
          if current_total = 0 then n
          else
            { p_set := some (cols.map (fun c =>
                (c.1, c.2.map (fun v => v * (t / current_total))))) }

end LoadScaler

section Examples

open RegionAgg Resample LoadScaler Aggregators

/-- Two parallel lines A–B with distinct parallel counts (3 and 1). -/
def exLineA : Line := ⟨"lA", "a1", "b1", 3, 3, 1/10, 2/10, 3/100, 10, 1, 345⟩

/-- See `exLineA`. -/
def exLineB : Line := ⟨"lB", "a2", "b1", 1, 1, 2/10, 4/10, 1/100, 10, 1, 345⟩

/-- A line with zero capacity. -/
def exZeroLine : Line := ⟨"z1", "a1", "b1", 1, 1, 0, 0, 0, 0, 1, 345⟩

/-- A link with zero capacity. -/
def exZeroLink : Link := ⟨"k1", "a1", "b1", 0, 1, 1⟩

/-- A two-bus network whose second bus has no region value and whose first
generator sits on that bus with no region value either. -/
def exC1Network : Network :=
  { buses := [⟨"b1", some "R", 0, 0, 100⟩, ⟨"b2", none, 0, 0, 100⟩],
    generators := [⟨"g1", "b2", none⟩, ⟨"g2", "b1", some "R"⟩],
    lines := [], links := [], loads := [] }

/-- A one-table, two-snapshot network for the resampler. -/
def exRNetwork : RNetwork :=
  { snapshots := [0, 1],
    tables := [⟨"loads_t", "p_set", true, [(0, [2]), (1, [4])]⟩],
    comps := [] }

/-- A one-component network with a `ramp_limit_up` column, for the `scale`
rule. -/
def exScaleNetwork : RNetwork :=
  { snapshots := [0, 1],
    tables := [],
    comps := [⟨"generators", [("ramp_limit_up", [1/2, 3/10]), ("p_nom", [5, 7])]⟩] }

/-- An external-defaults table that is never consulted in the examples. -/
def exDflt : String → String → ℚ := fun _ _ => 0

/-- A two-load `p_set` block with grand total 10. -/
def exLoadCols : List (String × List ℚ) := [("d1", [1, 2]), ("d2", [3, 4])]

/-- Province-mapping records where a later official name ("B") equals an
earlier short name. -/
def exBadRecords : List ProvRecord :=
  [(some "A", some "B"), (some "B", some "C")]

/-- Ordinary province-mapping records (official → short). -/
def exGoodRecords : List ProvRecord := [(some "Gangwon-do", some "Gangwon")]

end Examples

/-- A prefix of `dropWhile p l` has no leading `p`-element either. -/
theorem dropWhile_of_prefix_dropWhile (p : Char → Bool) (l M : List Char)
    (h : M <+: List.dropWhile p l) : List.dropWhile p M = M := by
  rcases hM : M with _ | ⟨b, B⟩
  · simp
  · obtain ⟨t, ht⟩ := h
    rw [hM] at ht
    have hw : List.dropWhile p l ≠ [] := by rw [← ht]; simp
    have hb : p b = false := by
      have h2 := List.head_dropWhile_not p l hw
      have h3 : (List.dropWhile p l).head hw = b := by
        simp only [← ht, List.cons_append, List.head_cons]
      rw [h3] at h2; exact h2
    simp [List.dropWhile_cons, hb]

/-- Stripping twice is the same as stripping once (character-list level). -/
theorem pstripChars_idem (l : List Char) :
    pstripChars (pstripChars l) = pstripChars l := by
  unfold pstripChars
  rw [dropWhile_of_prefix_dropWhile _ l _ (List.rdropWhile_prefix _ _),
    List.rdropWhile_idempotent]

/-- Stripping twice is the same as stripping once. -/
theorem pstrip_idem (s : String) : pstrip (pstrip s) = pstrip s := by
  unfold pstrip
  congr 1
  exact pstripChars_idem s.data

open RegionAgg Resample LoadScaler Aggregators in
/-- C2: under the `weighted_by_circuits` impedance rule, each merged
impedance attribute (r, x, b) equals Σ(value·circuits)/Σ(circuits) when
Σ(circuits) > 0 and the unweighted mean when Σ(circuits) = 0; in
particular two parallel edges with impedances r1, r2 and parallel counts
n1, n2 merge to (r1·n1 + r2·n2)/(n1 + n2). -/
theorem C2_weighted_mean_impedance (cfg : LineConfig) (b0 b1 : String)
    (vn : Option ℚ) (group : List Line)
    (hcfg : cfg.impedance = "weighted_by_circuits") :
    (0 < (group.map Line.circuits).sum →
      (aggLineGroup cfg b0 b1 vn group).r =
        some ((group.map (fun l => l.r * l.circuits)).sum /
          (group.map Line.circuits).sum) ∧
      (aggLineGroup cfg b0 b1 vn group).x =
        some ((group.map (fun l => l.x * l.circuits)).sum /
          (group.map Line.circuits).sum) ∧
      (aggLineGroup cfg b0 b1 vn group).b =
        some ((group.map (fun l => l.b * l.circuits)).sum /
          (group.map Line.circuits).sum)) ∧
    ((group.map Line.circuits).sum = 0 →
      (aggLineGroup cfg b0 b1 vn group).r =
        some (qmean (group.map Line.r)) ∧
      (aggLineGroup cfg b0 b1 vn group).x =
        some (qmean (group.map Line.x)) ∧
      (aggLineGroup cfg b0 b1 vn group).b =
        some (qmean (group.map Line.b))) ∧
    (∀ lA lB : Line, 0 < lA.circuits + lB.circuits →
      (aggLineGroup cfg b0 b1 vn [lA, lB]).r =
        some ((lA.r * lA.circuits + lB.r * lB.circuits) /
          (lA.circuits + lB.circuits))) := by
  refine ⟨fun hpos => ?_, fun hzero => ?_, fun lA lB hpos => ?_⟩
  · simp [aggLineGroup, hcfg, if_pos hpos]
  · simp [aggLineGroup, hcfg, hzero]
  · simp [aggLineGroup, hcfg, if_pos hpos]

open RegionAgg in
/-- C2 witness: merging two parallel lines with impedances 1/10 and 2/10
and parallel counts 3 and 1 gives (3·(1/10) + 1·(2/10))/4 = 1/8, which
differs from the naive mean 3/20. -/
theorem C2_weighted_mean_impedance_witness :
    ({} : LineConfig).impedance = "weighted_by_circuits" ∧
    (0 : ℚ) < exLineA.circuits + exLineB.circuits ∧
    (aggLineGroup {} "A" "B" none [exLineA, exLineB]).r = some (1/8) ∧
    (1/8 : ℚ) ≠ (1/10 + 2/10) / 2 := by
  have hpos : (0 : ℚ) < exLineA.circuits + exLineB.circuits := by
    norm_num [exLineA, exLineB]
  refine ⟨rfl, hpos, ?_, by norm_num⟩
  have h := (C2_weighted_mean_impedance {} "A" "B" none [exLineA, exLineB]
    rfl).2.2 exLineA exLineB hpos
  rw [h]
  norm_num [exLineA, exLineB]

open RegionAgg in
/-- C5 counterexample: merging two zero-capacity parallel lines under the
`sum` capacity rule emits a merged line whose `s_nom` is exactly 0 — no
"effectively unconstrained" sentinel is substituted for lines. -/
theorem C5_counterexample_zero_capacity_line_stays_zero :
    (aggLineGroup { s_nom := "sum" } "A" "B" none
      [exZeroLine, exZeroLine]).s_nom = 0 ∧
    (aggLineGroup { s_nom := "sum" } "A" "B" none
      [exZeroLine, exZeroLine]).s_nom ≠ (1000000 : ℚ) := by
  constructor <;> norm_num [aggLineGroup, exZeroLine]

open RegionAgg in
/-- C5 amended: only merged links receive the sentinel: when the combined
`p_nom` of a link group reduces to zero, the emitted link carries the
configured `unlimited_capacity` (default 1e6) instead of zero, and
otherwise carries the combined value; merged lines keep their combined
`s_nom` as computed by the capacity rule even when it is zero. -/
theorem C5_amended_link_sentinel (lcfg : LinkConfig) (cfg : LineConfig)
    (b0 b1 : String) (vn : Option ℚ) (lgroup : List Link)
    (group : List Line) (hsum : lcfg.p_nom = "sum")
    (hline : cfg.s_nom = "sum") :
    ((lgroup.map Link.p_nom).sum = 0 →
      (aggLinkGroup lcfg b0 b1 lgroup).p_nom = lcfg.unlimited_capacity) ∧
    ((lgroup.map Link.p_nom).sum ≠ 0 →
      (aggLinkGroup lcfg b0 b1 lgroup).p_nom = (lgroup.map Link.p_nom).sum) ∧
    (aggLineGroup cfg b0 b1 vn group).s_nom = (group.map Line.s_nom).sum := by
  refine ⟨fun hz => ?_, fun hnz => ?_, ?_⟩
  · simp [aggLinkGroup, hsum, hz]
  · simp [aggLinkGroup, hsum, hnz]
  · simp [aggLineGroup, hline]

open RegionAgg in
/-- C5 amended witness: a zero-capacity link group gets the 1e6 default
sentinel; the matching line group keeps capacity 0. -/
theorem C5_amended_link_sentinel_witness :
    ({} : LinkConfig).p_nom = "sum" ∧ ({ s_nom := "sum" } : LineConfig).s_nom = "sum" ∧
    ([exZeroLink, exZeroLink].map Link.p_nom).sum = 0 ∧
    (aggLinkGroup {} "A" "B" [exZeroLink, exZeroLink]).p_nom = 1000000 ∧
    (aggLineGroup { s_nom := "sum" } "A" "B" none
      [exZeroLine, exZeroLine]).s_nom = 0 := by
  have hz : ([exZeroLink, exZeroLink].map Link.p_nom).sum = 0 := by
    simp [exZeroLink]
  refine ⟨rfl, rfl, hz, ?_, ?_⟩
  · have h := (C5_amended_link_sentinel {} { s_nom := "sum" } "A" "B" none
      [exZeroLink, exZeroLink] [exZeroLine, exZeroLine] rfl rfl).1 hz
    rw [h]
  · have h := (C5_amended_link_sentinel {} { s_nom := "sum" } "A" "B" none
      [exZeroLink, exZeroLink] [exZeroLine, exZeroLine] rfl rfl).2.2
    rw [h]; simp [exZeroLine]

open Aggregators in
/-- C6 counterexample: an unknown rule name ("keep_first") on a static
attribute makes the reducer emit the rule string itself as a fixed value —
not the value 5 held by the group member with the largest `p_nom`. -/
theorem C6_counterexample_unknown_rule_fixed_value :
    mergeStaticAttr (.name "keep_first") "coal" none "foo" [] [(10, 5), (3, 7)]
      = some (.str "keep_first") ∧
    valueAtMaxPnom [(10, 5), (3, 7)] = 5 ∧
    Val.str "keep_first" ≠ Val.num 5 := by
  refine ⟨rfl, ?_, by simp⟩
  norm_num [valueAtMaxPnom]

open Aggregators in
/-- C6 amended: an unknown scalar rule name on a static attribute is used
as a fixed value (no pick-by-max); only a non-scalar rule value falls back
to the value from the group member with the largest `p_nom`; an unknown
time-series rule falls back to the unweighted mean (with a warning). -/
theorem C6_amended_unknown_rule_fallbacks (s carrier colName : String)
    (pm : List (String × String)) (rows : List (ℚ × ℚ))
    (region : Option String) (r : String) (vals : List ℚ)
    (hs : s ∉ knownRuleStrings) (hr : r ∉ knownTsRules) :
    mergeStaticAttr (.name s) carrier region colName pm rows =
      some (.str s) ∧
    mergeStaticAttr .nonScalar carrier region colName pm rows =
      some (.num (valueAtMaxPnom rows)) ∧
    mergeTsAt r vals = qmean vals := by
  simp only [knownRuleStrings, List.mem_cons, List.not_mem_nil, or_false] at hs
  push_neg at hs
  obtain ⟨hc, hreg, hp, ho, hsm, hne, hl, hsu, hme, hrem, hig⟩ := hs
  simp only [knownTsRules, List.mem_cons, List.not_mem_nil, or_false] at hr
  push_neg at hr
  obtain ⟨tr1, tr2, tr3, tr4⟩ := hr
  refine ⟨?_, rfl, ?_⟩
  · simp [mergeStaticAttr, hc, hreg, hp, ho, hsm, hne, hl, hsu, hme, hrem, hig]
  · simp [mergeTsAt, tr1, tr2, tr3, tr4]

open Aggregators in
/-- C6 amended witness: with rule name "keep_first" on rows of `p_nom` 10
and 3 (values 5 and 7), the static reducer returns the string
"keep_first", the non-scalar fallback returns 5 (the value at maximal
`p_nom`), and the unknown time-series rule "bogus" averages [1, 3] to 2. -/
theorem C6_amended_unknown_rule_fallbacks_witness :
    "keep_first" ∉ knownRuleStrings ∧ "bogus" ∉ knownTsRules ∧
    mergeStaticAttr (.name "keep_first") "coal" (some "R") "foo" []
      [(10, 5), (3, 7)] = some (.str "keep_first") ∧
    mergeStaticAttr .nonScalar "coal" (some "R") "foo" [] [(10, 5), (3, 7)]
      = some (.num 5) ∧
    mergeTsAt "bogus" [1, 3] = 2 := by
  have h := C6_amended_unknown_rule_fallbacks "keep_first" "coal" "foo" []
    [(10, 5), (3, 7)] (some "R") "bogus" [1, 3] (by decide) (by decide)
  refine ⟨by decide, by decide, h.1, ?_, ?_⟩
  · rw [h.2.1]
    norm_num [valueAtMaxPnom]
  · rw [h.2.2]
    norm_num [qmean]

open Aggregators in
/-- C7 counterexample: on a generator table lacking the `carrier` column,
the aggregation entry guard returns the skip outcome (warn, give back the
network unchanged) — it does not raise a fatal configuration error. -/
theorem C7_counterexample_missing_carrier_not_fatal :
    genAggGuard ["bus", "p_nom"] (some "province") true =
      .ok .skippedNoCarrier ∧
    isFatalGuard (genAggGuard ["bus", "p_nom"] (some "province") true)
      = false := by
  constructor <;> rfl

open Aggregators in
/-- C7 amended: a missing `carrier` column makes the pass warn and return
the network unchanged; a requested region column that is absent makes it
warn and degrade to carrier-only aggregation; no configuration of columns
and rules makes the guard raise. -/
theorem C7_amended_missing_grouping_warns_and_degrades
    (cols : List String) (rcol : Option String) (hasRules : Bool)
    (rc : String) :
    ("carrier" ∉ cols →
      genAggGuard cols rcol hasRules = .ok .skippedNoCarrier) ∧
    ("carrier" ∈ cols → rc ∉ cols → hasRules = true →
      genAggGuard cols (some rc) hasRules = .ok (.carrierOnly true)) ∧
    isFatalGuard (genAggGuard cols rcol hasRules) = false := by
  refine ⟨fun hc => ?_, fun hcar hrc hr => ?_, ?_⟩
  · simp [genAggGuard, hc]
  · simp [genAggGuard, hcar, hrc, hr]
  · unfold genAggGuard
    split
    · rfl
    · split
      · split <;> rfl
      · split
        · split <;> rfl
        · split <;> rfl

open Aggregators in
/-- C7 amended witness: concrete instances of the three behaviours. -/
theorem C7_amended_missing_grouping_warns_and_degrades_witness :
    "carrier" ∉ ["bus"] ∧
    genAggGuard ["bus"] none true = .ok .skippedNoCarrier ∧
    "carrier" ∈ ["carrier", "p_nom"] ∧ "province" ∉ ["carrier", "p_nom"] ∧
    genAggGuard ["carrier", "p_nom"] (some "province") true =
      .ok (.carrierOnly true) ∧
    isFatalGuard (genAggGuard ["bus"] none true) = false := by
  have h1 := (C7_amended_missing_grouping_warns_and_degrades ["bus"] none
    true "province").1 (by decide)
  have h2 := (C7_amended_missing_grouping_warns_and_degrades
    ["carrier", "p_nom"] (some "province") true "province").2.1
    (by decide) (by decide) rfl
  have h3 := (C7_amended_missing_grouping_warns_and_degrades ["bus"] none
    true "province").2.2
  exact ⟨by decide, h1, by decide, by decide, h2, h3⟩

/-- Multiplying every element by a constant multiplies the sum. -/
theorem sum_map_mul_const (l : List ℚ) (f : ℚ) :
    (l.map (fun v => v * f)).sum = l.sum * f := by
  induction l with
  | nil => simp
  | cons a t ih => simp [ih, add_mul]

open LoadScaler in
/-- Scaling every column by a constant scales the grand total. -/
theorem grandTotal_map_mul (cols : List (String × List ℚ)) (f : ℚ) :
    grandTotal (cols.map (fun c => (c.1, c.2.map (fun v => v * f)))) =
      grandTotal cols * f := by
  induction cols with
  | nil => simp [grandTotal]
  | cons c t ih =>
    simp only [grandTotal, List.map_cons, List.sum_cons] at ih ⊢
    rw [sum_map_mul_const, ih, add_mul]

open LoadScaler in
/-- C9: with a present, nonempty `loads_t.p_set` of nonzero grand total and
a positive target, `scale_loads_to_target` multiplies every load's series
by the single factor target/total, making the new grand total exactly the
target; a missing target, a non-positive target, or a zero current total
leaves the network unchanged. -/
theorem C9_load_scaling (n : LNetwork) (t : ℚ)
    (cols : List (String × List ℚ)) (hp : n.p_set = some cols) :
    (scale_loads_to_target n none = n) ∧
    (t ≤ 0 → scale_loads_to_target n (some t) = n) ∧
    (grandTotal cols = 0 → scale_loads_to_target n (some t) = n) ∧
    (0 < t → grandTotal cols ≠ 0 →
      scale_loads_to_target n (some t) =
        { p_set := some (cols.map (fun c =>
            (c.1, c.2.map (fun v => v * (t / grandTotal cols))))) } ∧
      grandTotal (cols.map (fun c =>
          (c.1, c.2.map (fun v => v * (t / grandTotal cols))))) = t) := by
  refine ⟨rfl, fun ht => ?_, fun hz => ?_, fun ht hnz => ⟨?_, ?_⟩⟩
  · simp [scale_loads_to_target, ht]
  · by_cases ht : t ≤ 0
    · simp [scale_loads_to_target, ht]
    · by_cases hce : cols.isEmpty
      · simp [scale_loads_to_target, ht, hp, hce]
      · simp [scale_loads_to_target, ht, hp, hce, hz]
  · have hle : ¬ t ≤ 0 := not_le.mpr ht
    have hce : cols.isEmpty = false := by
      cases cols with
      | nil => simp [grandTotal] at hnz
      | cons c cs => rfl
    simp [scale_loads_to_target, hle, hp, hce, hnz]
  · rw [grandTotal_map_mul, mul_comm, div_mul_cancel₀ _ hnz]

open LoadScaler in
/-- C9 witness: two loads with series [1,2] and [3,4] (grand total 10)
scaled to target 20 become [2,4] and [6,8], whose grand total is 20. -/
theorem C9_load_scaling_witness :
    (0 : ℚ) < 20 ∧ grandTotal exLoadCols = 10 ∧
    scale_loads_to_target ⟨some exLoadCols⟩ (some 20) =
      ⟨some [("d1", [2, 4]), ("d2", [6, 8])]⟩ ∧
    grandTotal [("d1", [(2 : ℚ), 4]), ("d2", [(6 : ℚ), 8])] = 20 := by
  have hgt : grandTotal exLoadCols = 10 := by
    norm_num [grandTotal, exLoadCols]
  have h := (C9_load_scaling ⟨some exLoadCols⟩ 20 exLoadCols rfl).2.2.2
    (by norm_num) (by rw [hgt]; norm_num)
  refine ⟨by norm_num, hgt, ?_, by norm_num [grandTotal]⟩
  rw [h.1, hgt]
  norm_num [exLoadCols]

open Resample in
/-- Updating the column at a present key makes later lookups return the new
column. -/
theorem assocLookup_assocUpdate (l : List (String × List ℚ)) (k : String)
    (v col : List ℚ) (h : assocLookup l k = some col) :
    assocLookup (assocUpdate l k v) k = some v := by
  induction l with
  | nil => simp [assocLookup] at h
  | cons p t ih =>
    by_cases hk : p.1 = k
    · simp [assocLookup, assocUpdate, List.find?_cons, hk]
    · have h2 : assocLookup t k = some col := by
        simpa [assocLookup, List.find?_cons, hk] using h
      simpa [assocLookup, assocUpdate, List.find?_cons, hk] using ih h2

open Resample in
/-- C8: a static attribute governed by a `scale` rule row is multiplied,
entity by entity, by the aggregation factor `w` when the resampler runs
with `w > 1`. -/
theorem C8_scale_rule_multiplies (dflt : String → String → ℚ)
    (n : RNetwork) (w : ℕ) (v : Option ℚ) (c : StaticComp) (a : String)
    (col : List ℚ) (hw : 1 < w) (hm : c ∈ n.comps)
    (ht : strEndsWith c.name "_t" = false)
    (hempty : staticCompEmpty c = false)
    (hcol : assocLookup c.attrs a = some col) :
    ∃ c2 ∈ (resample_network dflt n w
        (some [⟨c.name, a, "scale", v⟩])).1.comps,
      c2.name = c.name ∧
      assocLookup c2.attrs a = some (col.map (fun x => x * (w : ℚ))) := by
  have hw2 : ¬ w ≤ 1 := not_le.mpr hw
  have hnz : ¬ ([⟨c.name, a, "scale", v⟩] : List RuleRow) = [] := by simp
  set newcol := col.map (fun x => x * (w : ℚ)) with hnewcol
  refine ⟨{ c with attrs := assocUpdate c.attrs a newcol }, ?_, rfl, ?_⟩
  · simp only [resample_network, hw2, if_false, resampleCore]
    simp only [if_neg hnz]
    simp only [_resample_static_components]
    refine List.mem_map.mpr ⟨c, hm, ?_⟩
    simp [ht, hempty, applyRulesToComp, hcol, applyStaticResampleRule,
      hnewcol]
  · exact assocLookup_assocUpdate _ _ _ _ hcol

open Resample in
/-- C8 witness: a `generators` component with `ramp_limit_up` column
[1/2, 3/10], under a single `scale` rule with factor 4, ends with the
column [2, 6/5]. -/
theorem C8_scale_rule_multiplies_witness :
    1 < 4 ∧ (⟨"generators", [("ramp_limit_up", [1/2, 3/10]),
      ("p_nom", [5, 7])]⟩ : StaticComp) ∈ exScaleNetwork.comps ∧
    ([1/2, 3/10] : List ℚ).map (fun x => x * ((4 : ℕ) : ℚ)) = [2, 6/5] ∧
    (∃ c2 ∈ (resample_network exDflt exScaleNetwork 4
        (some [⟨"generators", "ramp_limit_up", "scale", none⟩])).1.comps,
      c2.name = "generators" ∧
      assocLookup c2.attrs "ramp_limit_up" =
        some (([1/2, 3/10] : List ℚ).map (fun x => x * ((4 : ℕ) : ℚ)))) := by
  refine ⟨by norm_num, by simp [exScaleNetwork], by norm_num, ?_⟩
  exact C8_scale_rule_multiplies exDflt exScaleNetwork 4 none
    ⟨"generators", [("ramp_limit_up", [1/2, 3/10]), ("p_nom", [5, 7])]⟩
    "ramp_limit_up" [1/2, 3/10] (by norm_num) (by simp [exScaleNetwork])
    rfl rfl rfl

open Resample in
/-- The temporal-data fold appends exactly the per-table resampling events
to the accumulated trace. -/
theorem tableStep_foldl_trace (w : ℕ) (ts : List TSTable)
    (acc : List TSTable × List REvent) :
    (ts.foldl (tableStep w) acc).2 = acc.2 ++ tsEvents ts := by
  induction ts generalizing acc with
  | nil => simp [tsEvents]
  | cons t rest ih =>
    by_cases hc : t.isDatetime = true ∧ t.data ≠ []
    · obtain ⟨h1, h2⟩ := hc
      simp [List.foldl_cons, tableStep, h1, h2, ih, tsEvents,
        List.filterMap_cons]
    · simp [List.foldl_cons, tableStep, hc, ih, tsEvents,
        List.filterMap_cons]

open Resample in
/-- No axis event occurs among the per-table events. -/
theorem axisSet_not_mem_tsEvents (ts : List TSTable) :
    REvent.axisSet ∉ tsEvents ts := by
  intro h
  rw [tsEvents, List.mem_filterMap] at h
  obtain ⟨t, _, ht⟩ := h
  by_cases hc : t.isDatetime = true ∧ t.data ≠ []
  · rw [if_pos hc] at ht
    exact REvent.noConfusion (Option.some.inj ht)
  · rw [if_neg hc] at ht
    exact Option.noConfusion ht

open Resample in
/-- C3: whenever the resampler runs with factor > 1, its trace ends with
the single axis-replacement event, and the bucket-reduction event of every
nonempty datetime-indexed table occurs strictly before it: the axis is
never changed while a table still holds original-resolution data. -/
theorem C3_tables_resampled_before_axis (dflt : String → String → ℚ)
    (n : RNetwork) (w : ℕ) (rules : Option (List RuleRow)) (hw : 1 < w) :
    ((resample_network dflt n w rules).2).getLast? = some REvent.axisSet ∧
    (∀ e ∈ ((resample_network dflt n w rules).2).dropLast,
      e ≠ REvent.axisSet) ∧
    (∀ t ∈ n.tables, t.isDatetime = true → t.data ≠ [] →
      REvent.resampledTable t.comp t.attr ∈
        ((resample_network dflt n w rules).2).dropLast) := by
  have hw2 : ¬ w ≤ 1 := not_le.mpr hw
  have htrace : (resample_network dflt n w rules).2 =
      tsEvents n.tables ++ [REvent.axisSet] := by
    simp only [resample_network, hw2, if_false, resampleCore]
    rcases rules with _ | rs
    · simp [tableStep_foldl_trace]
    · by_cases hrs : rs = []
      · simp [hrs, tableStep_foldl_trace]
      · simp [hrs, tableStep_foldl_trace]
  rw [htrace]
  refine ⟨List.getLast?_concat _, ?_, ?_⟩
  · rw [List.dropLast_concat]
    intro e he heq
    rw [heq] at he
    exact axisSet_not_mem_tsEvents n.tables he
  · intro t hm hdt hne
    rw [List.dropLast_concat]
    exact List.mem_filterMap.mpr ⟨t, hm, by rw [if_pos ⟨hdt, hne⟩]⟩

open Resample in
/-- C3 witness: on the two-snapshot example network with factor 2, the
trace ends with the axis event and the table's reduction event precedes
it. -/
theorem C3_tables_resampled_before_axis_witness :
    1 < 2 ∧
    ((resample_network exDflt exRNetwork 2 none).2).getLast? =
      some REvent.axisSet ∧
    REvent.resampledTable "loads_t" "p_set" ∈
      ((resample_network exDflt exRNetwork 2 none).2).dropLast := by
  have h := C3_tables_resampled_before_axis exDflt exRNetwork 2 none
    (by norm_num)
  refine ⟨by norm_num, h.1, ?_⟩
  exact h.2.2 ⟨"loads_t", "p_set", true, [(0, [2]), (1, [4])]⟩
    (by simp [exRNetwork]) rfl (by simp)

open Resample in
/-- C4 counterexample: with factor 2 and a missing rule table, the current
resampler does not return the input: the snapshot axis (and the time
series) are still resampled — only the static-attribute pass is skipped. -/
theorem C4_counterexample_missing_rules_still_resamples :
    (resample_network exDflt exRNetwork 2 none).1.snapshots = [0] ∧
    exRNetwork.snapshots = [0, 1] ∧
    (resample_network exDflt exRNetwork 2 none).1 ≠ exRNetwork := by
  refine ⟨rfl, rfl, fun h => ?_⟩
  have h2 : ([0] : List ℕ) = [0, 1] := congrArg RNetwork.snapshots h
  simp at h2

open Resample in
/-- C4 amended: an aggregation factor ≤ 1 returns the network equal to the
input; a missing rule table with factor > 1 does not — it yields exactly
the core resampling of snapshots and time series, skipping only the
static-attribute pass. -/
theorem C4_amended_noop_conditions (dflt : String → String → ℚ)
    (n : RNetwork) (w : ℕ) (rules : Option (List RuleRow)) :
    (w ≤ 1 → (resample_network dflt n w rules).1 = n) ∧
    (1 < w → (resample_network dflt n w none).1 = (resampleCore n w).1) := by
  refine ⟨fun hw => ?_, fun hw => ?_⟩
  · simp [resample_network, hw]
  · simp [resample_network, not_le.mpr hw]

open Resample in
/-- C4 amended witness: factor 1 is a no-op on the example network; factor
2 with no rules equals the core resampling. -/
theorem C4_amended_noop_conditions_witness :
    (1 : ℕ) ≤ 1 ∧
    (resample_network exDflt exRNetwork 1 none).1 = exRNetwork ∧
    1 < 2 ∧
    (resample_network exDflt exRNetwork 2 none).1 =
      (resampleCore exRNetwork 2).1 := by
  have h1 := C4_amended_noop_conditions exDflt exRNetwork 1 none
  have h2 := C4_amended_noop_conditions exDflt exRNetwork 2 none
  exact ⟨le_refl 1, h1.1 (le_refl 1), by norm_num, h2.2 (by norm_num)⟩

/-- Every entry of `dinsert m k v` is an entry of `m` or carries value
`v`. -/
theorem dinsert_values (m : List (String × String)) (k v : String)
    (q : String × String) (hq : q ∈ dinsert m k v) : q ∈ m ∨ q.2 = v := by
  rw [dinsert] at hq
  by_cases hk : k ∈ m.map Prod.fst
  · rw [if_pos hk] at hq
    obtain ⟨p, hp, he⟩ := List.mem_map.mp hq
    by_cases h2 : p.1 = k
    · right; rw [← he]; simp [h2]
    · left; rw [← he]; simp only [h2, if_false]; exact hp
  · rw [if_neg hk] at hq
    rcases List.mem_append.mp hq with h | h
    · left; exact h
    · right
      simp only [List.mem_singleton] at h
      rw [h]

/-- A successful `dlookup` value comes from an entry of the dictionary. -/
theorem dlookup_mem (m : List (String × String)) (k v : String)
    (h : dlookup m k = some v) : ∃ p ∈ m, p.2 = v := by
  rw [dlookup] at h
  rcases hf : m.find? (fun p => p.1 = k) with _ | q
  · rw [hf] at h; exact absurd h (by simp)
  · rw [hf] at h
    simp at h
    exact ⟨q, List.mem_of_find?_eq_some hf, h⟩

open RegionAgg in
/-- One `load_province_mapping` iteration preserves "every stored value is
strip-fixed": both bindings a record adds store the stripped short name. -/
theorem provStep_values (m : List (String × String)) (rec : ProvRecord)
    (hm : ∀ p ∈ m, pstrip p.2 = p.2) :
    ∀ p ∈ provStep m rec, pstrip p.2 = p.2 := by
  intro p hp
  unfold provStep at hp
  split at hp
  · exact hm p hp
  · rename_i rawShort heq
    split at hp
    · exact hm p hp
    · rcases dinsert_values _ _ _ _ hp with h | h
      · split at h
        · exact hm p h
        · split at h
          · exact hm p h
          · rcases dinsert_values _ _ _ _ h with h2 | h2
            · exact hm p h2
            · rw [h2]; exact pstrip_idem rawShort
      · rw [h]; exact pstrip_idem rawShort

open RegionAgg in
/-- Every value stored by `load_province_mapping` is a stripped string. -/
theorem provMapping_values_stripped (records : List ProvRecord) :
    ∀ p ∈ load_province_mapping records, pstrip p.2 = p.2 := by
  suffices h : ∀ (m : List (String × String)),
      (∀ p ∈ m, pstrip p.2 = p.2) →
      ∀ p ∈ records.foldl provStep m, pstrip p.2 = p.2 by
    exact h [] (by simp)
  induction records with
  | nil => intro m hm p hp; exact hm p hp
  | cons rec rest ih =>
    intro m hm p hp
    exact ih (provStep m rec) (provStep_values m rec hm) p hp

open RegionAgg in
/-- C10 counterexample: with mapping records [("A","B"), ("B","C")] (a
later official name equal to an earlier short name), the built dictionary
maps A↦B and B↦C, so standardizing "A" twice gives "C" while standardizing
it once gives "B": not idempotent. -/
theorem C10_counterexample_not_idempotent :
    standardize_region_name (some "A")
      (load_province_mapping exBadRecords) = some "B" ∧
    standardize_region_name (standardize_region_name (some "A")
        (load_province_mapping exBadRecords))
      (load_province_mapping exBadRecords) = some "C" ∧
    standardize_region_name (standardize_region_name (some "A")
        (load_province_mapping exBadRecords))
      (load_province_mapping exBadRecords) ≠
      standardize_region_name (some "A")
        (load_province_mapping exBadRecords) := by
  refine ⟨by decide, by decide, by decide⟩

open RegionAgg in
/-- C10 amended: `standardize_region_name` is idempotent for every mapping
built by `load_province_mapping` in which each stored value again maps to
itself (the property the claim assumed to hold always; it fails when a
later record's official name equals an earlier record's short name). -/
theorem C10_amended_idempotent_when_shorts_fixed
    (records : List ProvRecord) (x : Option String)
    (h1 : ∀ p ∈ load_province_mapping records,
      dlookup (load_province_mapping records) p.2 = some p.2) :
    standardize_region_name
      (standardize_region_name x (load_province_mapping records))
      (load_province_mapping records) =
      standardize_region_name x (load_province_mapping records) := by
  rcases x with _ | r
  · rfl
  · by_cases hm0 : load_province_mapping records = []
    · simp [standardize_region_name, stdName, hm0]
    · simp only [standardize_region_name, stdName, if_neg hm0]
      rcases hl : dlookup (load_province_mapping records) (pstrip r)
        with _ | v
      · simp only [dlookupD, hl, Option.getD_none]
        rw [pstrip_idem, hl]
        rfl
      · simp only [dlookupD, hl, Option.getD_some]
        obtain ⟨p, hpm, hpv⟩ := dlookup_mem _ _ _ hl
        have hsv : pstrip v = v := by
          rw [← hpv]; exact provMapping_values_stripped records p hpm
        have hlv : dlookup (load_province_mapping records) v = some v := by
          have hx := h1 p hpm; rw [hpv] at hx; exact hx
        rw [hsv, hlv]
        rfl

open RegionAgg in
/-- C10 amended witness: for the ordinary record ("Gangwon-do","Gangwon"),
every stored value maps to itself and standardization is idempotent on
"Gangwon-do". -/
theorem C10_amended_idempotent_when_shorts_fixed_witness :
    (∀ p ∈ load_province_mapping exGoodRecords,
      dlookup (load_province_mapping exGoodRecords) p.2 = some p.2) ∧
    standardize_region_name
      (standardize_region_name (some "Gangwon-do")
        (load_province_mapping exGoodRecords))
      (load_province_mapping exGoodRecords) =
      standardize_region_name (some "Gangwon-do")
        (load_province_mapping exGoodRecords) :=
  ⟨by decide, C10_amended_idempotent_when_shorts_fixed exGoodRecords
    (some "Gangwon-do") (by decide)⟩

open RegionAgg in
/-- The bus-aggregation step emits exactly one bus per region, named after
it. -/
theorem busNames_after_aggregate_buses (n : Network) (regions : List String)
    (btr : List (String × String)) :
    (_aggregate_buses_by_region n regions btr).buses.map Bus.name =
      regions := by
  simp only [_aggregate_buses_by_region, List.map_map]
  exact List.map_id regions

open RegionAgg in
/-- The line merger touches only the line table. -/
theorem aggregate_lines_preserves (n : Network) (cfg : LineConfig)
    (btr : List (String × String)) :
    (_aggregate_lines_by_region n cfg btr).buses = n.buses ∧
    (_aggregate_lines_by_region n cfg btr).generators = n.generators ∧
    (_aggregate_lines_by_region n cfg btr).links = n.links ∧
    (_aggregate_lines_by_region n cfg btr).loads = n.loads := by
  unfold _aggregate_lines_by_region
  split <;> simp

open RegionAgg in
/-- The link merger touches only the link table. -/
theorem aggregate_links_preserves (n : Network) (cfg : LinkConfig)
    (btr : List (String × String)) :
    (_aggregate_links_by_region n cfg btr).buses = n.buses ∧
    (_aggregate_links_by_region n cfg btr).generators = n.generators ∧
    (_aggregate_links_by_region n cfg btr).lines = n.lines ∧
    (_aggregate_links_by_region n cfg btr).loads = n.loads := by
  unfold _aggregate_links_by_region
  split <;> simp

open RegionAgg in
/-- The load-creation step touches only the load table. -/
theorem create_loads_preserves (n : Network)
    (demand : Option (List (Option String × ℚ)))
    (pm : List (String × String)) :
    (_create_regional_loads n demand pm).buses = n.buses ∧
    (_create_regional_loads n demand pm).generators = n.generators ∧
    (_create_regional_loads n demand pm).lines = n.lines ∧
    (_create_regional_loads n demand pm).links = n.links := by
  unfold _create_regional_loads
  rcases demand with _ | rows <;> simp

/-- A successful `dlookup` result is one of the dictionary's values. -/
theorem dlookup_val_mem (m : List (String × String)) (k v : String)
    (h : dlookup m k = some v) : v ∈ m.map Prod.snd := by
  obtain ⟨p, hp, hv⟩ := dlookup_mem m k v h
  exact List.mem_map.mpr ⟨p, hp, hv⟩

open RegionAgg in
/-- An endpoint-mapped line triple carries region values of the bus→region
dictionary. -/
theorem mapEndpointsLine_mem (btr : List (String × String)) (l0 : Line)
    (t : Line × String × String) (h : mapEndpointsLine btr l0 = some t) :
    t.2.1 ∈ btr.map Prod.snd ∧ t.2.2 ∈ btr.map Prod.snd := by
  unfold mapEndpointsLine at h
  rcases h0 : dlookup btr l0.bus0 with _ | r0 <;> rw [h0] at h
  · exact Option.noConfusion h
  · rcases h1 : dlookup btr l0.bus1 with _ | r1 <;> rw [h1] at h
    · exact Option.noConfusion h
    · injection h with h2
      rw [← h2]
      exact ⟨dlookup_val_mem _ _ _ h0, dlookup_val_mem _ _ _ h1⟩

open RegionAgg in
/-- As `mapEndpointsLine_mem`, for links. -/
theorem mapEndpointsLink_mem (btr : List (String × String)) (l0 : Link)
    (t : Link × String × String) (h : mapEndpointsLink btr l0 = some t) :
    t.2.1 ∈ btr.map Prod.snd ∧ t.2.2 ∈ btr.map Prod.snd := by
  unfold mapEndpointsLink at h
  rcases h0 : dlookup btr l0.bus0 with _ | r0 <;> rw [h0] at h
  · exact Option.noConfusion h
  · rcases h1 : dlookup btr l0.bus1 with _ | r1 <;> rw [h1] at h
    · exact Option.noConfusion h
    · injection h with h2
      rw [← h2]
      exact ⟨dlookup_val_mem _ _ _ h0, dlookup_val_mem _ _ _ h1⟩

open RegionAgg in
/-- Every merged line's endpoints are values of the bus→region
dictionary. -/
theorem aggregate_lines_endpoints (n : Network) (cfg : LineConfig)
    (btr : List (String × String)) (hne : n.lines.isEmpty = false) :
    ∀ l ∈ (_aggregate_lines_by_region n cfg btr).lines,
      l.bus0 ∈ btr.map Prod.snd ∧ l.bus1 ∈ btr.map Prod.snd := by
  intro l hl
  unfold _aggregate_lines_by_region at hl
  simp only [hne, Bool.false_eq_true, if_false] at hl
  obtain ⟨ik, hik, hmk⟩ := List.mem_map.mp hl
  have hk : ik.2 ∈ lineGroupKeys n cfg btr := by
    rcases ik with ⟨i, k⟩
    exact List.getElem?_mem (List.mk_mem_enum_iff_getElem?.mp hik)
  have hb0 : l.bus0 = ik.2.1 := by rw [← hmk]; rfl
  have hb1 : l.bus1 = ik.2.2.1 := by rw [← hmk]; rfl
  rw [hb0, hb1]
  rw [lineGroupKeys] at hk
  obtain ⟨t, htm, hkey⟩ := List.mem_map.mp (List.mem_dedup.mp hk)
  have ht0 : ik.2.1 = t.2.1 := by rw [← hkey]; rfl
  have ht1 : ik.2.2.1 = t.2.2 := by rw [← hkey]; rfl
  rw [ht0, ht1]
  have htm2 : t ∈ n.lines.filterMap (mapEndpointsLine btr) := by
    rw [linesAfterSelf] at htm
    split at htm
    · exact List.mem_of_mem_filter htm
    · exact htm
  obtain ⟨l0, _, hfm⟩ := List.mem_filterMap.mp htm2
  exact mapEndpointsLine_mem btr l0 t hfm

open RegionAgg in
/-- Every merged link's endpoints are values of the bus→region
dictionary. -/
theorem aggregate_links_endpoints (n : Network) (cfg : LinkConfig)
    (btr : List (String × String)) (hne : n.links.isEmpty = false) :
    ∀ l ∈ (_aggregate_links_by_region n cfg btr).links,
      l.bus0 ∈ btr.map Prod.snd ∧ l.bus1 ∈ btr.map Prod.snd := by
  intro l hl
  unfold _aggregate_links_by_region at hl
  simp only [hne, Bool.false_eq_true, if_false] at hl
  obtain ⟨ik, hik, hmk⟩ := List.mem_map.mp hl
  have hk : ik.2 ∈ linkGroupKeys n cfg btr := by
    rcases ik with ⟨i, k⟩
    exact List.getElem?_mem (List.mk_mem_enum_iff_getElem?.mp hik)
  have hb0 : l.bus0 = ik.2.1 := by rw [← hmk]; rfl
  have hb1 : l.bus1 = ik.2.2 := by rw [← hmk]; rfl
  rw [hb0, hb1]
  rw [linkGroupKeys] at hk
  obtain ⟨t, htm, hkey⟩ := List.mem_map.mp (List.mem_dedup.mp hk)
  have ht0 : ik.2.1 = t.2.1 := by rw [← hkey]
  have ht1 : ik.2.2 = t.2.2 := by rw [← hkey]
  rw [ht0, ht1]
  have htm2 : t ∈ n.links.filterMap (mapEndpointsLink btr) := by
    rw [linksAfterSelf] at htm
    split at htm
    · exact List.mem_of_mem_filter htm
    · exact htm
  obtain ⟨l0, _, hfm⟩ := List.mem_filterMap.mp htm2
  exact mapEndpointsLink_mem btr l0 t hfm

open RegionAgg in
/-- A fixed-up load references an existing bus. -/
theorem fixLoad_bus_mem (busNames : List String) (l0 ld : Load)
    (h : fixLoad busNames l0 = some ld) : ld.bus ∈ busNames := by
  unfold fixLoad at h
  split at h
  · rename_i hb
    injection h with h2
    rw [← h2]; exact hb
  · rename_i hb
    split at h
    · rename_i r heq
      split at h
      · rename_i hrb
        injection h with h2
        rw [← h2]; exact hrb
      · exact Option.noConfusion h
    · exact Option.noConfusion h

/-- A fold whose step preserves a load property preserves it globally. -/
theorem foldl_loads_mem {β : Type} (P : RegionAgg.Load → Prop)
    (step : List RegionAgg.Load → β → List RegionAgg.Load) :
    ∀ (L : List β),
      (∀ acc b, b ∈ L → (∀ l ∈ acc, P l) → ∀ l ∈ step acc b, P l) →
      ∀ acc, (∀ l ∈ acc, P l) → ∀ l ∈ L.foldl step acc, P l := by
  intro L
  induction L with
  | nil => intro _ acc h l hl; exact h l hl
  | cons b bs ih =>
    intro hstep acc h l hl
    exact ih (fun acc2 b2 hb2 => hstep acc2 b2 (List.mem_cons_of_mem _ hb2))
      (step acc b) (hstep acc b (List.mem_cons_self _ _) h) l hl

open RegionAgg in
/-- Adding a demand load preserves "every load's bus exists". -/
theorem addDemandLoad_mem (busNames : List String) (total : ℚ)
    (acc : List Load) (p : Option String × ℚ)
    (h : ∀ l ∈ acc, l.bus ∈ busNames) :
    ∀ l ∈ addDemandLoad busNames total acc p, l.bus ∈ busNames := by
  intro l hl
  unfold addDemandLoad at hl
  split at hl
  · rename_i region heq
    split at hl
    · rename_i hc
      split at hl
      · exact h l hl
      · rcases List.mem_append.mp hl with h2 | h2
        · exact h l h2
        · simp only [List.mem_singleton] at h2
          rw [h2]; exact hc.1
    · exact h l hl
  · exact h l hl

open RegionAgg in
/-- Adding a fallback load for an existing bus preserves the property. -/
theorem addFallbackLoad_mem (busNames : List String) (acc : List Load)
    (region : String) (hreg : region ∈ busNames)
    (h : ∀ l ∈ acc, l.bus ∈ busNames) :
    ∀ l ∈ addFallbackLoad acc region, l.bus ∈ busNames := by
  intro l hl
  unfold addFallbackLoad at hl
  by_cases hn : ("load_" ++ region) ∈ acc.map Load.name
  · rw [if_pos hn] at hl; exact h l hl
  · rw [if_neg hn] at hl
    rcases List.mem_append.mp hl with h2 | h2
    · exact h l h2
    · simp only [List.mem_singleton] at h2
      rw [h2]; exact hreg

open RegionAgg in
/-- After the load-creation step, every load references an existing bus. -/
theorem create_loads_bus_mem (n : Network)
    (demand : Option (List (Option String × ℚ)))
    (pm : List (String × String)) :
    ∀ ld ∈ (_create_regional_loads n demand pm).loads,
      ld.bus ∈ n.buses.map Bus.name := by
  have hfix : ∀ ld ∈ n.loads.filterMap (fixLoad (n.buses.map Bus.name)),
      ld.bus ∈ n.buses.map Bus.name := by
    intro ld hld
    obtain ⟨l0, _, hf⟩ := List.mem_filterMap.mp hld
    exact fixLoad_bus_mem _ l0 ld hf
  rcases demand with _ | rows0
  · intro ld hld
    simp only [_create_regional_loads, fallbackLoads] at hld
    exact foldl_loads_mem (fun l => l.bus ∈ n.buses.map Bus.name)
      addFallbackLoad (n.buses.map Bus.name)
      (fun acc b hb hacc => addFallbackLoad_mem _ acc b hb hacc)
      _ hfix ld hld
  · intro ld hld
    simp only [_create_regional_loads, regionalLoadsFromDemand] at hld
    exact foldl_loads_mem (fun l => l.bus ∈ n.buses.map Bus.name)
      (addDemandLoad (n.buses.map Bus.name)
        ((demandRows rows0 pm).map Prod.snd).sum)
      (demandRows rows0 pm)
      (fun acc b _ hacc => addDemandLoad_mem _ _ acc b hacc)
      _ hfix ld hld

open RegionAgg in
/-- Exactly what the per-generator rebinding does: the name and region are
kept; a generator whose standardized region is an existing bus is rebound
to it; every generator either ends on an existing bus or keeps its old
bus. -/
theorem mapGen_cases (busNames : List String) (pm : List (String × String))
    (g0 : Gen) :
    (mapGenToRegionalBus busNames pm g0).name = g0.name ∧
    (mapGenToRegionalBus busNames pm g0).region = g0.region ∧
    (∀ r, g0.region = some r → stdName r pm ∈ busNames →
      (mapGenToRegionalBus busNames pm g0).bus = stdName r pm) ∧
    ((mapGenToRegionalBus busNames pm g0).bus ∈ busNames ∨
      (mapGenToRegionalBus busNames pm g0).bus = g0.bus) := by
  unfold mapGenToRegionalBus
  split
  · rename_i r heq
    by_cases hmem : stdName r pm ∈ busNames
    · rw [if_pos hmem]
      refine ⟨rfl, rfl, ?_, Or.inl hmem⟩
      intro r2 hr2 _
      rw [heq] at hr2
      injection hr2 with h3
      rw [h3]
    · rw [if_neg hmem]
      refine ⟨rfl, rfl, ?_, Or.inr rfl⟩
      intro r2 hr2 hmem2
      rw [heq] at hr2
      injection hr2 with h3
      rw [← h3] at hmem2
      exact absurd hmem2 hmem
  · rename_i heq
    refine ⟨rfl, rfl, ?_, Or.inr rfl⟩
    intro r2 hr2 _
    rw [heq] at hr2
    exact Option.noConfusion hr2

open RegionAgg in
/-- C1 counterexample: after a full regional-aggregation pass over a
network whose generator `g1` has no region value, the post-pass bus table
is `["R"]` while `g1` still references its old (removed) bus `b2` — a
dangling reference. -/
theorem C1_counterexample_unmapped_generator_dangles :
    (aggregate_network_by_region exC1Network {}).generators.map Gen.bus =
      ["b2", "R"] ∧
    (aggregate_network_by_region exC1Network {}).buses.map Bus.name =
      ["R"] ∧
    "b2" ∉ ["R"] := by
  refine ⟨rfl, rfl, by decide⟩

open RegionAgg in
/-- C1 amended: after a full pass (with the optional generator-by-carrier
sub-step off), every merged line's and link's endpoints and every load's
bus are members of the post-pass bus table; a generator whose standardized
region name is a post-pass bus is rebound to it; and every generator either
references a post-pass bus or has kept its pre-pass bus reference —
generators with a missing or unmapped region are NOT rebound, so their old
reference may dangle. -/
theorem C1_amended_references_resolve (n : Network) (cfg : RegionalConfig) :
    (∀ l ∈ (aggregate_network_by_region n cfg).lines,
      l.bus0 ∈ (aggregate_network_by_region n cfg).buses.map Bus.name ∧
      l.bus1 ∈ (aggregate_network_by_region n cfg).buses.map Bus.name) ∧
    (∀ k ∈ (aggregate_network_by_region n cfg).links,
      k.bus0 ∈ (aggregate_network_by_region n cfg).buses.map Bus.name ∧
      k.bus1 ∈ (aggregate_network_by_region n cfg).buses.map Bus.name) ∧
    (∀ ld ∈ (aggregate_network_by_region n cfg).loads,
      ld.bus ∈ (aggregate_network_by_region n cfg).buses.map Bus.name) ∧
    (∀ g ∈ (aggregate_network_by_region n cfg).generators, ∀ r,
      g.region = some r →
      stdName r (load_province_mapping cfg.provinceRecords) ∈
        (aggregate_network_by_region n cfg).buses.map Bus.name →
      g.bus = stdName r (load_province_mapping cfg.provinceRecords)) ∧
    (∀ g ∈ (aggregate_network_by_region n cfg).generators,
      g.bus ∈ (aggregate_network_by_region n cfg).buses.map Bus.name ∨
      ∃ g0 ∈ n.generators, g0.name = g.name ∧ g.bus = g0.bus) := by
  set pm := load_province_mapping cfg.provinceRecords with hpm
  set btr := (_create_bus_to_region_mapping n pm).1 with hbtr
  set regions := (_create_bus_to_region_mapping n pm).2 with hregions
  set n1 := _aggregate_buses_by_region n regions btr with hn1
  set n2 := _map_generators_to_regional_buses n1 pm with hn2
  set n3 := (if ¬ n2.lines.isEmpty then
    _aggregate_lines_by_region n2 cfg.lineCfg btr else n2) with hn3
  set n4 := (if ¬ n3.links.isEmpty then
    _aggregate_links_by_region n3 cfg.linkCfg btr else n3) with hn4
  have hres : aggregate_network_by_region n cfg =
      _create_regional_loads n4 cfg.demandData pm := rfl
  rw [hres]
  have hpres := create_loads_preserves n4 cfg.demandData pm
  have hb3 : n3.buses = n1.buses := by
    rw [hn3]; split
    · exact (aggregate_lines_preserves n2 cfg.lineCfg btr).1
    · rfl
  have hb4 : n4.buses = n1.buses := by
    rw [hn4]; split
    · exact ((aggregate_links_preserves n3 cfg.linkCfg btr).1).trans hb3
    · exact hb3
  have hnames : (_create_regional_loads n4 cfg.demandData pm).buses.map
      Bus.name = regions := by
    rw [hpres.1, hb4, hn1]
    exact busNames_after_aggregate_buses n regions btr
  have hmem_of_btr : ∀ s, s ∈ btr.map Prod.snd →
      s ∈ (_create_regional_loads n4 cfg.demandData pm).buses.map
        Bus.name := by
    intro s hs
    rw [hnames]
    have hrd : regions = (btr.map Prod.snd).dedup := rfl
    rw [hrd]
    exact List.mem_dedup.mpr hs
  have hgen : (_create_regional_loads n4 cfg.demandData pm).generators =
      n.generators.map (mapGenToRegionalBus (n1.buses.map Bus.name) pm) := by
    rw [hpres.2.1]
    have hg4 : n4.generators = n3.generators := by
      rw [hn4]; split
      · exact (aggregate_links_preserves n3 cfg.linkCfg btr).2.1
      · rfl
    have hg3 : n3.generators = n2.generators := by
      rw [hn3]; split
      · exact (aggregate_lines_preserves n2 cfg.lineCfg btr).2.1
      · rfl
    rw [hg4, hg3, hn2]
    rfl
  refine ⟨?_, ?_, ?_, ?_, ?_⟩
  · intro l hl
    rw [hpres.2.2.1] at hl
    have hl3 : l ∈ n3.lines := by
      rw [hn4] at hl
      split at hl
      · rwa [(aggregate_links_preserves n3 cfg.linkCfg btr).2.2.1] at hl
      · exact hl
    rw [hn3] at hl3
    by_cases hemp : n2.lines.isEmpty = true
    · rw [if_neg (not_not_intro hemp)] at hl3
      rw [List.isEmpty_iff] at hemp
      rw [hemp] at hl3
      exact absurd hl3 (List.not_mem_nil l)
    · rw [if_pos hemp] at hl3
      have hep := aggregate_lines_endpoints n2 cfg.lineCfg btr
        (by simpa using hemp) l hl3
      exact ⟨hmem_of_btr _ hep.1, hmem_of_btr _ hep.2⟩
  · intro k hk
    rw [hpres.2.2.2] at hk
    have hk4 : k ∈ n4.links := hk
    rw [hn4] at hk4
    by_cases hemp : n3.links.isEmpty = true
    · rw [if_neg (not_not_intro hemp)] at hk4
      rw [List.isEmpty_iff] at hemp
      rw [hemp] at hk4
      exact absurd hk4 (List.not_mem_nil k)
    · rw [if_pos hemp] at hk4
      have hep := aggregate_links_endpoints n3 cfg.linkCfg btr
        (by simpa using hemp) k hk4
      exact ⟨hmem_of_btr _ hep.1, hmem_of_btr _ hep.2⟩
  · intro ld hld
    have hx := create_loads_bus_mem n4 cfg.demandData pm ld hld
    rw [hpres.1]
    exact hx
  · intro g hg r hr hmem
    rw [hgen] at hg
    obtain ⟨g0, hg0, hmk⟩ := List.mem_map.mp hg
    have hc := mapGen_cases (n1.buses.map Bus.name) pm g0
    rw [hmk] at hc
    have hr0 : g0.region = some r := by rw [← hc.2.1]; exact hr
    have hmem1 : stdName r pm ∈ n1.buses.map Bus.name := by
      rw [hpres.1, hb4] at hmem
      exact hmem
    exact hc.2.2.1 r hr0 hmem1
  · intro g hg
    rw [hgen] at hg
    obtain ⟨g0, hg0, hmk⟩ := List.mem_map.mp hg
    have hc := mapGen_cases (n1.buses.map Bus.name) pm g0
    rw [hmk] at hc
    rcases hc.2.2.2 with h | h
    · left
      rw [hpres.1, hb4]
      exact h
    · right
      exact ⟨g0, hg0, hc.1.symm, h⟩

open RegionAgg in
/-- C1 amended witness: on the example network, the regional load and the
mapped generator both resolve against the post-pass bus table. -/
theorem C1_amended_references_resolve_witness :
    (⟨"load_R", "R", none⟩ : Load) ∈
      (aggregate_network_by_region exC1Network {}).loads ∧
    (⟨"g2", "R", some "R"⟩ : Gen) ∈
      (aggregate_network_by_region exC1Network {}).generators ∧
    "R" ∈ (aggregate_network_by_region exC1Network {}).buses.map Bus.name ∧
    (⟨"g2", "R", some "R"⟩ : Gen).bus = stdName "R"
      (load_province_mapping ({} : RegionalConfig).provinceRecords) := by
  refine ⟨by decide, by decide, ?_, ?_⟩
  · exact (C1_amended_references_resolve exC1Network {}).2.2.1
      ⟨"load_R", "R", none⟩ (by decide)
  · exact (C1_amended_references_resolve exC1Network {}).2.2.2.1
      ⟨"g2", "R", some "R"⟩ (by decide) "R" rfl (by decide)

end PlanitSpec
